import Mathlib

/-!
Shallow embedding of the HomeNest real-estate listing server (`src/index.js`):
an Express application over three MongoDB collections (`properties`, `reviews`,
`testimonials`) with a Firebase bearer-token guard on mutating routes.

Documents are modelled as association lists of BSON-like values, a collection
as a list of documents (in insertion order, matching natural order for the
query shapes the server uses), and each route handler as a pure function from
its request data and the store to a result carrying the HTTP status, the JSON
response body, the updated store, and the log of store operations performed.
MongoDB driver behaviour that the handlers rely on (`ObjectId` validation and
construction, `findOne`/`updateOne`/`deleteOne` acting on the first matching
document, `{field: null}` filters matching both null and missing fields,
`undefined` body fields serialised as null) is embedded explicitly.
-/

/-- A BSON-like value stored in a document field.  `vOid` is a MongoDB
ObjectId, kept as its canonical lowercase 24-hex string form. -/
inductive Val where
  | vNull
  | vBool (b : Bool)
  | vNum (n : Int)
  | vStr (s : String)
  | vOid (hex : String)
  | vDoc (fields : List (String × Val))

mutual

/-- Decidable equality on values (manual, because of the nested list). -/
def Val.decEq : (a b : Val) → Decidable (a = b)
  | .vNull, .vNull => isTrue rfl
  | .vBool a, .vBool b =>
    if h : a = b then isTrue (by rw [h])
    else isFalse (fun he => h (Val.vBool.inj he))
  | .vNum a, .vNum b =>
    if h : a = b then isTrue (by rw [h])
    else isFalse (fun he => h (Val.vNum.inj he))
  | .vStr a, .vStr b =>
    if h : a = b then isTrue (by rw [h])
    else isFalse (fun he => h (Val.vStr.inj he))
  | .vOid a, .vOid b =>
    if h : a = b then isTrue (by rw [h])
    else isFalse (fun he => h (Val.vOid.inj he))
  | .vDoc a, .vDoc b =>
    match Val.decEqFields a b with
    | isTrue h => isTrue (by rw [h])
    | isFalse h => isFalse (fun he => h (Val.vDoc.inj he))
  | .vNull, .vBool _ => isFalse (fun h => Val.noConfusion h)
  | .vNull, .vNum _ => isFalse (fun h => Val.noConfusion h)
  | .vNull, .vStr _ => isFalse (fun h => Val.noConfusion h)
  | .vNull, .vOid _ => isFalse (fun h => Val.noConfusion h)
  | .vNull, .vDoc _ => isFalse (fun h => Val.noConfusion h)
  | .vBool _, .vNull => isFalse (fun h => Val.noConfusion h)
  | .vBool _, .vNum _ => isFalse (fun h => Val.noConfusion h)
  | .vBool _, .vStr _ => isFalse (fun h => Val.noConfusion h)
  | .vBool _, .vOid _ => isFalse (fun h => Val.noConfusion h)
  | .vBool _, .vDoc _ => isFalse (fun h => Val.noConfusion h)
  | .vNum _, .vNull => isFalse (fun h => Val.noConfusion h)
  | .vNum _, .vBool _ => isFalse (fun h => Val.noConfusion h)
  | .vNum _, .vStr _ => isFalse (fun h => Val.noConfusion h)
  | .vNum _, .vOid _ => isFalse (fun h => Val.noConfusion h)
  | .vNum _, .vDoc _ => isFalse (fun h => Val.noConfusion h)
  | .vStr _, .vNull => isFalse (fun h => Val.noConfusion h)
  | .vStr _, .vBool _ => isFalse (fun h => Val.noConfusion h)
  | .vStr _, .vNum _ => isFalse (fun h => Val.noConfusion h)
  | .vStr _, .vOid _ => isFalse (fun h => Val.noConfusion h)
  | .vStr _, .vDoc _ => isFalse (fun h => Val.noConfusion h)
  | .vOid _, .vNull => isFalse (fun h => Val.noConfusion h)
  | .vOid _, .vBool _ => isFalse (fun h => Val.noConfusion h)
  | .vOid _, .vNum _ => isFalse (fun h => Val.noConfusion h)
  | .vOid _, .vStr _ => isFalse (fun h => Val.noConfusion h)
  | .vOid _, .vDoc _ => isFalse (fun h => Val.noConfusion h)
  | .vDoc _, .vNull => isFalse (fun h => Val.noConfusion h)
  | .vDoc _, .vBool _ => isFalse (fun h => Val.noConfusion h)
  | .vDoc _, .vNum _ => isFalse (fun h => Val.noConfusion h)
  | .vDoc _, .vStr _ => isFalse (fun h => Val.noConfusion h)
  | .vDoc _, .vOid _ => isFalse (fun h => Val.noConfusion h)

/-- Decidable equality on field lists of nested documents. -/
def Val.decEqFields : (a b : List (String × Val)) → Decidable (a = b)
  | [], [] => isTrue rfl
  | [], _ :: _ => isFalse (fun h => List.noConfusion h)
  | _ :: _, [] => isFalse (fun h => List.noConfusion h)
  | (k, v) :: r, (k', v') :: r' =>
    if h1 : k = k' then
      match Val.decEq v v', Val.decEqFields r r' with
      | isTrue h2, isTrue h3 => isTrue (by rw [h1, h2, h3])
      | isFalse h2, _ =>
        isFalse (fun he => h2 (congrArg Prod.snd (List.head_eq_of_cons_eq he)))
      | _, isFalse h3 =>
        isFalse (fun he => h3 (List.tail_eq_of_cons_eq he))
    else isFalse (fun he => h1 (congrArg Prod.fst (List.head_eq_of_cons_eq he)))

end

instance : DecidableEq Val := Val.decEq

/-- A document: an ordered association list of fields, as a JS object /
BSON document. -/
abbrev Doc := List (String × Val)

/-- Read a field of a document (first occurrence, as in a JS object). -/
def Doc.getField (d : Doc) (k : String) : Option Val :=
  (d.find? (fun kv => kv.1 == k)).map (fun kv => kv.2)

/-- Read a field, mapping a missing field to null.  This is how a missing
(`undefined`) JS value is seen by the MongoDB driver (`ignoreUndefined`
defaults to false, serialising `undefined` as null). -/
def normGet (d : Doc) (k : String) : Val :=
  (d.getField k).getD .vNull

/-- JS truthiness of a stored value (`undefined` is handled by callers). -/
def Val.truthy : Val → Bool
  | .vNull => false
  | .vBool b => b
  | .vNum n => n != 0
  | .vStr s => s ≠ ""
  | .vOid _ => true
  | .vDoc _ => true

/-- JS `a || b` over an optionally-present value: the value if present and
truthy, the default otherwise. -/
def jsOr (v : Option Val) (dflt : Val) : Val :=
  match v with
  | some w => if w.truthy then w else dflt
  | none => dflt

/-- MongoDB equality filter `{k: v}` on a document: matches when the field
equals `v`; a null filter value also matches a missing field. -/
def matchesField (d : Doc) (k : String) (v : Val) : Bool :=
  normGet d k == v

/-- Set a field of a document: overwrite in place when the key is present
(keeping its position, as JS object spread / MongoDB `$set` do), append
otherwise. -/
def Doc.setField (d : Doc) (k : String) (v : Val) : Doc :=
  match d with
  | [] => [(k, v)]
  | (k', v') :: rest =>
    if k' == k then (k', v) :: rest else (k', v') :: Doc.setField rest k v

/-- MongoDB `$set` with an update document: set each of its fields in order. -/
def Doc.setFields (d : Doc) (upd : Doc) : Doc :=
  upd.foldl (fun acc kv => acc.setField kv.1 kv.2) d

/-- JS `delete obj[k]`. -/
def Doc.removeField (d : Doc) (k : String) : Doc :=
  match d with
  | [] => []
  | (k', v) :: rest =>
    if k' = k then Doc.removeField rest k else (k', v) :: Doc.removeField rest k

/-- Dot-path read `d.k1.k2`, used by the `"posted_by.email"` filters. -/
def getNested (d : Doc) (k1 k2 : String) : Option Val :=
  match d.getField k1 with
  | some (.vDoc f) => Doc.getField f k2
  | _ => none

/-- The filter `{"posted_by.email": email}`. -/
def matchesPostedByEmail (d : Doc) (email : String) : Bool :=
  ((getNested d "posted_by" "email").getD .vNull) == .vStr email

/-- Hex digit as accepted by the driver's ObjectId hex check. -/
def isHexChar (c : Char) : Bool :=
  c.isDigit || ('a' ≤ c && c ≤ 'f') || ('A' ≤ c && c ≤ 'F')

/-- `ObjectId.isValid` on a string (bson v5+ driver): exactly a
24-character hex string. -/
def objectIdIsValid (s : String) : Bool :=
  s.length == 24 && s.data.all isHexChar

/-- Canonical (lowercase) form of a hex string: `ObjectId(s).toString()`
lowercases the hex. -/
def lowerHex (s : String) : String :=
  ⟨s.data.map Char.toLower⟩

/-- `new ObjectId(s)` on a string: succeeds exactly on 24-hex strings,
yielding the canonical lowercase form; otherwise throws. -/
def makeOid (s : String) : Option String :=
  if objectIdIsValid s then some (lowerHex s) else none

/-- `new ObjectId(v)` on a stored value: a valid hex string or an ObjectId
is accepted; any other value is modelled as a constructor failure. -/
def makeOidFromVal : Val → Option String
  | .vStr s => makeOid s
  | .vOid s => some s
  | _ => none

/-- JS `v.toString()` of a stored value; `none` models a thrown TypeError
(on null / missing). -/
def valToString : Val → Option String
  | .vNull => none
  | .vBool b => some (cond b "true" "false")
  | .vNum n => some (toString n)
  | .vStr s => some s
  | .vOid s => some s
  | .vDoc _ => some "[object Object]"

/-- JS strict equality `v === s` between a stored value and a string. -/
def strictEqStr (v : Val) (s : String) : Bool :=
  match v with
  | .vStr t => t == s
  | _ => false

/-- BSON cross-type sort rank (restricted to the value forms modelled). -/
def Val.rank : Val → Nat
  | .vNull => 0
  | .vNum _ => 1
  | .vStr _ => 2
  | .vDoc _ => 3
  | .vOid _ => 4
  | .vBool _ => 5

/-- A total comparison on values following BSON sort order within the
string/number forms the server actually sorts on (`created_at`). -/
def Val.le (a b : Val) : Bool :=
  match a, b with
  | .vNum x, .vNum y => x ≤ y
  | .vStr x, .vStr y => x ≤ y
  | .vOid x, .vOid y => x ≤ y
  | .vBool x, .vBool y => !x || y
  | .vDoc _, .vDoc _ => true
  | _, _ => a.rank ≤ b.rank

/-- Strict greater-than derived from `Val.le`. -/
def valGt (a b : Val) : Bool :=
  Val.le b a && !(Val.le a b)

/-- The `created_at` sort key of a document (missing sorts as null). -/
def createdAtOf (d : Doc) : Val :=
  normGet d "created_at"

/-- One insertion step of the descending-by-`created_at` sort. -/
def insertByDesc (d : Doc) : List Doc → List Doc
  | [] => [d]
  | e :: rest =>
    if valGt (createdAtOf d) (createdAtOf e) then d :: e :: rest
    else e :: insertByDesc d rest

/-- `.sort({created_at: -1})`: sort documents by `created_at` descending. -/
def sortByCreatedAtDesc (l : List Doc) : List Doc :=
  l.foldr insertByDesc []

/-- `updateOne`: apply `f` to the first document matching `p` (no-op when
none matches). -/
def updateFirst (p : Doc → Bool) (f : Doc → Doc) : List Doc → List Doc
  | [] => []
  | d :: rest =>
    if p d then f d :: rest else d :: updateFirst p f rest

/-- `deleteOne`: remove the first document matching `p`. -/
def deleteFirst (p : Doc → Bool) : List Doc → List Doc
  | [] => []
  | d :: rest =>
    if p d then rest else d :: deleteFirst p rest

/-- The document store: the three collections of the `HomeNest` database. -/
structure Store where
  properties : List Doc
  reviews : List Doc
  testimonials : List Doc
deriving DecidableEq

/-- A store operation performed by a handler (collection-tagged). -/
inductive StoreOp where
  | findAll (coll : String)
  | findQ (coll : String)
  | findOneQ (coll : String)
  | insertOne (coll : String)
  | updateOne (coll : String)
  | deleteOne (coll : String)
deriving DecidableEq

/-- A JSON response body: an object, an array of documents, or plain text. -/
inductive RespBody where
  | obj (d : Doc)
  | arr (l : List Doc)
  | text (s : String)
deriving DecidableEq

/-- The outcome of running one route handler. -/
structure RouteResult where
  status : Nat
  body : RespBody
  store : Store
  ops : List StoreOp
deriving DecidableEq

/-- `{message: m}` response body. -/
def msgBody (m : String) : RespBody :=
  .obj [("message", .vStr m)]

/-- The filter `{_id: new ObjectId(id)}` for an already-validated id. -/
def idFilter (id : String) (d : Doc) : Bool :=
  matchesField d "_id" (.vOid (lowerHex id))

/-- `{error: m}` response body (the testimonial routes use this shape). -/
def errBody (m : String) : RespBody :=
  .obj [("error", .vStr m)]

/-- The error message of the driver's ObjectId constructor. -/
def oidErrMsg : String :=
  "input must be a 24 character hex string, 12 byte Uint8Array, or an integer"

/-- The document actually stored by `insertOne`: the driver assigns a fresh
ObjectId `_id` when the document has none. -/
def insertedDoc (body : Doc) (fresh : String) : Doc :=
  if (body.getField "_id").isSome then body else ("_id", .vOid fresh) :: body

/-- GET `/properties`: list all properties. -/
def listProperties (st : Store) : RouteResult :=
  ⟨200, .arr st.properties, st, [.findAll "properties"]⟩

/-- GET `/properties/:id`: validate the id, then `findOne` by `_id`. -/
def getProperty (id : String) (st : Store) : RouteResult :=
  if !objectIdIsValid id then
    ⟨400, msgBody "Invalid property ID", st, []⟩
  else
    match st.properties.find? (idFilter id) with
    | none => ⟨404, msgBody "Property not found", st, [.findOneQ "properties"]⟩
    | some d => ⟨200, .obj d, st, [.findOneQ "properties"]⟩

/-- GET `/my-properties/:email`: properties with `posted_by.email = email`. -/
def myProperties (email : String) (st : Store) : RouteResult :=
  ⟨200, .arr (st.properties.filter (fun p => matchesPostedByEmail p email)), st,
    [.findQ "properties"]⟩

/-- POST `/properties`: insert the request body verbatim. -/
def postProperty (body : Doc) (fresh : String) (st : Store) : RouteResult :=
  let stored := insertedDoc body fresh
  ⟨201,
    .obj [("message", .vStr "Property created successfully"),
          ("insertedId", normGet stored "_id")],
    { st with properties := st.properties ++ [stored] },
    [.insertOne "properties"]⟩

/-- PUT `/properties/:id`: validate the id, delete `_id` from the body, then
`updateOne` with `$set` of the remaining body fields. -/
def putProperty (id : String) (body : Doc) (st : Store) : RouteResult :=
  if !objectIdIsValid id then
    ⟨400, msgBody "Invalid property ID", st, []⟩
  else
    let upd := body.removeField "_id"
    let matched := st.properties.any (idFilter id)
    let props := updateFirst (idFilter id) (fun d => d.setFields upd) st.properties
    if matched then
      ⟨200, msgBody "Property updated successfully",
        { st with properties := props }, [.updateOne "properties"]⟩
    else
      ⟨404, msgBody "Property not found",
        { st with properties := props }, [.updateOne "properties"]⟩

/-- DELETE `/properties/:id`: validate the id, then `deleteOne` by `_id`. -/
def deleteProperty (id : String) (st : Store) : RouteResult :=
  if !objectIdIsValid id then
    ⟨400, msgBody "Invalid property ID", st, []⟩
  else
    let deleted := st.properties.any (idFilter id)
    let props := deleteFirst (idFilter id) st.properties
    if deleted then
      ⟨200, msgBody "Property deleted successfully",
        { st with properties := props }, [.deleteOne "properties"]⟩
    else
      ⟨404, msgBody "Property not found",
        { st with properties := props }, [.deleteOne "properties"]⟩

/-- The enrichment object `{...rating, property_name: property?.property_name
|| "Unknown Property", property_image: property?.property_image || ""}`. -/
def enrichWith (property : Option Doc) (rating : Doc) : Doc :=
  (rating.setField "property_name"
      (jsOr (property.bind (fun p => p.getField "property_name"))
        (.vStr "Unknown Property"))).setField
    "property_image"
    (jsOr (property.bind (fun p => p.getField "property_image")) (.vStr ""))

/-- Sequence an option-producing map over a list (the all-or-nothing result
of `Promise.all` over fallible per-element work, and of a `.map` whose body
can throw). -/
def seqOption {α β : Type} (f : α → Option β) : List α → Option (List β)
  | [] => some []
  | a :: rest =>
    match f a, seqOption f rest with
    | some b, some bs => some (b :: bs)
    | _, _ => none

/-- GET `/my-property-ratings/:email`: load the user's properties (empty
result short-circuits to `[]` with no review query), collect their ids as
strings, load reviews with `property_id` in that set sorted by `created_at`
descending, and enrich each from the in-memory property list. -/
def myPropertyRatings (email : String) (st : Store) : RouteResult :=
  let userProps := st.properties.filter (fun p => matchesPostedByEmail p email)
  if userProps.isEmpty then
    ⟨200, .arr [], st, [.findQ "properties"]⟩
  else
    match seqOption (fun p => valToString (normGet p "_id")) userProps with
    | none =>
      ⟨500, .obj [("message", .vStr "Failed to fetch ratings")], st,
        [.findQ "properties"]⟩
    | some propertyIds =>
      let ratings := sortByCreatedAtDesc
        (st.reviews.filter (fun r =>
          propertyIds.any (fun pid => matchesField r "property_id" (.vStr pid))))
      let enriched := ratings.map (fun rating =>
        enrichWith
          (userProps.find? (fun p =>
            match valToString (normGet p "_id") with
            | some s => strictEqStr (normGet rating "property_id") s
            | none => false))
          rating)
      ⟨200, .arr enriched, st, [.findQ "properties", .findQ "reviews"]⟩

/-- GET `/my-ratings/:email`: load the user's reviews, then for each one
`findOne` the referenced property by `new ObjectId(rating.property_id)` and
enrich.  A failing ObjectId construction is caught as a 500. -/
def myRatings (email : String) (st : Store) : RouteResult :=
  let ratings := st.reviews.filter (fun r =>
    matchesField r "reviewer_email" (.vStr email))
  match seqOption (fun rating =>
      (makeOidFromVal (normGet rating "property_id")).map (fun oid =>
        enrichWith
          (st.properties.find? (fun p => matchesField p "_id" (.vOid oid)))
          rating)) ratings with
  | none =>
    ⟨500, .obj [("message", .vStr "Failed to fetch ratings"),
                ("error", .vStr oidErrMsg)], st, [.findQ "reviews"]⟩
  | some enriched =>
    ⟨200, .arr enriched, st,
      .findQ "reviews" :: ratings.map (fun _ => .findOneQ "properties")⟩

/-- GET `/properties/:id/reviews`: reviews with `property_id` equal to the
raw path string, sorted by `created_at` descending. -/
def propertyReviews (id : String) (st : Store) : RouteResult :=
  ⟨200,
    .arr (sortByCreatedAtDesc
      (st.reviews.filter (fun r => matchesField r "property_id" (.vStr id)))),
    st, [.findQ "reviews"]⟩

/-- The duplicate-review check filter
`{property_id: id, reviewer_email: reviewer_email}`. -/
def reviewDupFilter (id : String) (body : Doc) (r : Doc) : Bool :=
  matchesField r "property_id" (.vStr id) &&
    matchesField r "reviewer_email" (normGet body "reviewer_email")

/-- The review document built by the create handler, before the store
assigns `_id`. -/
def reviewDataOf (id : String) (body : Doc) (now : String) : Doc :=
  [("property_id", .vStr id),
   ("rating", normGet body "rating"),
   ("review_text", normGet body "review_text"),
   ("reviewer_email", normGet body "reviewer_email"),
   ("reviewer_name", normGet body "reviewer_name"),
   ("created_at", .vStr now)]

/-- POST `/properties/:id/reviews`: reject with 400 when a review for
`(property_id, reviewer_email)` already exists, else insert the review
document stamped with the current time. -/
def postReview (id : String) (body : Doc) (now : String) (fresh : String)
    (st : Store) : RouteResult :=
  match st.reviews.find? (reviewDupFilter id body) with
  | some _ =>
    ⟨400, msgBody "You have already reviewed this property", st,
      [.findOneQ "reviews"]⟩
  | none =>
    ⟨201,
      .obj [("message", .vStr "Review added successfully"),
            ("result", .vDoc [("insertedId", .vOid fresh)])],
      { st with
          reviews := st.reviews ++ [("_id", .vOid fresh) :: reviewDataOf id body now] },
      [.findOneQ "reviews", .insertOne "reviews"]⟩

/-- The `$set` applied by PUT `/reviews/:id`. -/
def reviewUpdate (body : Doc) (now : String) (d : Doc) : Doc :=
  ((d.setField "rating" (normGet body "rating")).setField "review_text"
      (normGet body "review_text")).setField "updated_at" (.vStr now)

/-- PUT `/reviews/:id`: validate the id, then `updateOne` setting `rating`,
`review_text` and `updated_at`. -/
def putReview (id : String) (body : Doc) (now : String) (st : Store) :
    RouteResult :=
  if !objectIdIsValid id then
    ⟨400, msgBody "Invalid review ID", st, []⟩
  else
    let matched := st.reviews.any (idFilter id)
    let revs := updateFirst (idFilter id) (reviewUpdate body now) st.reviews
    if matched then
      ⟨200, msgBody "Review updated successfully",
        { st with reviews := revs }, [.updateOne "reviews"]⟩
    else
      ⟨404, msgBody "Review not found",
        { st with reviews := revs }, [.updateOne "reviews"]⟩

/-- DELETE `/reviews/:id`: validate the id, then `deleteOne` by `_id`. -/
def deleteReview (id : String) (st : Store) : RouteResult :=
  if !objectIdIsValid id then
    ⟨400, msgBody "Invalid review ID", st, []⟩
  else
    let deleted := st.reviews.any (idFilter id)
    let revs := deleteFirst (idFilter id) st.reviews
    if deleted then
      ⟨200, msgBody "Review deleted successfully",
        { st with reviews := revs }, [.deleteOne "reviews"]⟩
    else
      ⟨404, msgBody "Review not found",
        { st with reviews := revs }, [.deleteOne "reviews"]⟩

/-- GET `/testimonials`: all testimonials sorted by `created_at` desc. -/
def listTestimonials (st : Store) : RouteResult :=
  ⟨200, .arr (sortByCreatedAtDesc st.testimonials), st, [.findQ "testimonials"]⟩

/-- GET `/testimonials/user/:email`: `findOne` by `email`. -/
def userTestimonial (email : String) (st : Store) : RouteResult :=
  match st.testimonials.find? (fun t => matchesField t "email" (.vStr email)) with
  | none => ⟨404, errBody "No testimonial found", st, [.findOneQ "testimonials"]⟩
  | some t => ⟨200, .obj t, st, [.findOneQ "testimonials"]⟩

/-- POST `/testimonials`: reject with 400 when a testimonial for the body's
`email` already exists, else insert the body verbatim. -/
def postTestimonial (body : Doc) (fresh : String) (st : Store) : RouteResult :=
  match st.testimonials.find? (fun t =>
      matchesField t "email" (normGet body "email")) with
  | some _ =>
    ⟨400, errBody "You have already submitted a testimonial", st,
      [.findOneQ "testimonials"]⟩
  | none =>
    let stored := insertedDoc body fresh
    ⟨201,
      .obj [("message", .vStr "Testimonial submitted successfully"),
            ("insertedId", normGet stored "_id")],
      { st with testimonials := st.testimonials ++ [stored] },
      [.findOneQ "testimonials", .insertOne "testimonials"]⟩

/-- PUT `/testimonials/:id`: no id validation — `new ObjectId(id)` throws on
a malformed id and the catch-all boundary answers 500.  Otherwise delete
`_id` from the body and `updateOne` with `$set` of the body fields plus a
refreshed `updated_at`. -/
def putTestimonial (id : String) (body : Doc) (now : String) (st : Store) :
    RouteResult :=
  match makeOid id with
  | none => ⟨500, errBody oidErrMsg, st, []⟩
  | some oid =>
    let p := fun d => matchesField d "_id" (.vOid oid)
    let upd := (body.removeField "_id").setField "updated_at" (.vStr now)
    let matched := st.testimonials.any p
    let ts := updateFirst p (fun d => d.setFields upd) st.testimonials
    if matched then
      ⟨200, msgBody "Testimonial updated successfully",
        { st with testimonials := ts }, [.updateOne "testimonials"]⟩
    else
      ⟨404, errBody "Testimonial not found",
        { st with testimonials := ts }, [.updateOne "testimonials"]⟩

/-- DELETE `/testimonials/:id`: no id validation — `new ObjectId(id)` throws
on a malformed id and the catch-all boundary answers 500. -/
def deleteTestimonial (id : String) (st : Store) : RouteResult :=
  match makeOid id with
  | none => ⟨500, errBody oidErrMsg, st, []⟩
  | some oid =>
    let p := fun d => matchesField d "_id" (.vOid oid)
    let deleted := st.testimonials.any p
    let ts := deleteFirst p st.testimonials
    if deleted then
      ⟨200, msgBody "Testimonial deleted successfully",
        { st with testimonials := ts }, [.deleteOne "testimonials"]⟩
    else
      ⟨404, errBody "Testimonial not found",
        { st with testimonials := ts }, [.deleteOne "testimonials"]⟩

/-- GET `/`: health text. -/
def homeRoute (st : Store) : RouteResult :=
  ⟨200, .text "HomeNest API Server Running!", st, []⟩

/-- A dispatched request: one constructor per route of the server. -/
inductive Request where
  | listProperties
  | getProperty (id : String)
  | myProperties (email : String)
  | postProperty (body : Doc)
  | putProperty (id : String) (body : Doc)
  | deleteProperty (id : String)
  | myPropertyRatings (email : String)
  | myRatings (email : String)
  | propertyReviews (id : String)
  | postReview (id : String) (body : Doc)
  | putReview (id : String) (body : Doc)
  | deleteReview (id : String)
  | listTestimonials
  | userTestimonial (email : String)
  | postTestimonial (body : Doc)
  | putTestimonial (id : String) (body : Doc)
  | deleteTestimonial (id : String)
  | home

/-- Per-request server-side data: the current timestamp string and the
ObjectId the store would assign to an inserted document. -/
structure Ctx where
  now : String
  fresh : String

/-- The router: run one request's handler against the store. -/
def handle (ctx : Ctx) (req : Request) (st : Store) : RouteResult :=
  match req with
  | .listProperties => listProperties st
  | .getProperty id => getProperty id st
  | .myProperties email => myProperties email st
  | .postProperty body => postProperty body ctx.fresh st
  | .putProperty id body => putProperty id body st
  | .deleteProperty id => deleteProperty id st
  | .myPropertyRatings email => myPropertyRatings email st
  | .myRatings email => myRatings email st
  | .propertyReviews id => propertyReviews id st
  | .postReview id body => postReview id body ctx.now ctx.fresh st
  | .putReview id body => putReview id body ctx.now st
  | .deleteReview id => deleteReview id st
  | .listTestimonials => listTestimonials st
  | .userTestimonial email => userTestimonial email st
  | .postTestimonial body => postTestimonial body ctx.fresh st
  | .putTestimonial id body => putTestimonial id body ctx.now st
  | .deleteTestimonial id => deleteTestimonial id st
  | .home => homeRoute st

/-- The remainder of the character list after the first occurrence of
`sep`; `none` when `sep` does not occur. -/
def afterFirst (sep : List Char) : List Char → Option (List Char)
  | [] => none
  | c :: rest =>
    if sep.isPrefixOf (c :: rest) then some ((c :: rest).drop sep.length)
    else afterFirst sep rest

/-- The prefix of the character list up to (excluding) the first occurrence
of `sep` (the whole list when `sep` does not occur). -/
def upToFirst (sep : List Char) : List Char → List Char
  | [] => []
  | c :: rest =>
    if sep.isPrefixOf (c :: rest) then [] else c :: upToFirst sep rest

/-- Element 1 of the JS `s.split(sep)` for a non-empty separator: the text
between the first occurrence of `sep` and the following one (or the end);
`undefined` (here `none`) when `sep` does not occur in `s`. -/
def splitSecond (sep s : String) : Option String :=
  match afterFirst sep.data s.data with
  | none => none
  | some rest => some ⟨upToFirst sep.data rest⟩

/-- `req.headers.authorization?.split("Bearer ")[1]`, with a falsy
(`undefined` or empty) result mapped to `none`. -/
def extractBearer (authHeader : Option String) : Option String :=
  match authHeader with
  | none => none
  | some h =>
    match splitSecond "Bearer " h with
    | none => none
    | some t => if t == "" then none else some t

/-- What the auth middleware decides for one request. -/
inductive AuthOutcome where
  | denied (status : Nat) (body : Doc)
  | allowed (user : Doc)
deriving DecidableEq

/-- The `verifyToken` middleware: no (or falsy) bearer token means 401
"No token provided"; a token the verifier rejects means 401 "Invalid token"
with the verifier's error message; a verified token yields the decoded
identity. -/
def verifyTokenStep (verify : String → Except String Doc)
    (authHeader : Option String) : AuthOutcome :=
  match extractBearer authHeader with
  | none => .denied 401 [("message", .vStr "No token provided")]
  | some t =>
    match verify t with
    | .error msg =>
      .denied 401 [("message", .vStr "Invalid token"), ("error", .vStr msg)]
    | .ok decoded => .allowed decoded

/-- A protected route: the middleware runs first; only when it allows the
request does the handler run, and it receives the decoded identity
(`req.user`). -/
def runProtected (verify : String → Except String Doc)
    (authHeader : Option String) (st : Store)
    (handler : Doc → RouteResult) : RouteResult :=
  match verifyTokenStep verify authHeader with
  | .denied status body => ⟨status, .obj body, st, []⟩
  | .allowed user => handler user

/-! ### Basic lemmas about document and collection operations -/

@[simp]
theorem Doc.getField_nil (k : String) : Doc.getField [] k = none := rfl

@[simp]
theorem Doc.getField_cons (k' : String) (v : Val) (d : Doc) (k : String) :
    Doc.getField ((k', v) :: d) k = if k' = k then some v else d.getField k := by
  simp only [Doc.getField]
  by_cases h : k' = k
  · rw [List.find?_cons_of_pos _ (by simp [h])]
    simp [h]
  · rw [List.find?_cons_of_neg _ (by simp [h])]
    simp [h]

theorem getField_setField_self (d : Doc) (k : String) (v : Val) :
    (d.setField k v).getField k = some v := by
  induction d with
  | nil => simp [Doc.setField]
  | cons kv rest ih =>
    obtain ⟨k0, v0⟩ := kv
    by_cases h : k0 = k
    · subst h
      simp [Doc.setField]
    · simp [Doc.setField, h, ih]

theorem getField_setField_ne (d : Doc) (k k' : String) (v : Val) (h : k' ≠ k) :
    (d.setField k v).getField k' = d.getField k' := by
  have hks : k ≠ k' := Ne.symm h
  induction d with
  | nil => simp [Doc.setField, hks]
  | cons kv rest ih =>
    obtain ⟨k0, v0⟩ := kv
    by_cases h0 : k0 = k
    · subst h0
      simp [Doc.setField, hks]
    · simp [Doc.setField, h0, ih]

theorem getField_setFields_of_forall_ne (d : Doc) (upd : Doc) (k : String)
    (h : ∀ kv ∈ upd, kv.1 ≠ k) :
    (d.setFields upd).getField k = d.getField k := by
  induction upd generalizing d with
  | nil => rfl
  | cons kv rest ih =>
    have hrw : Doc.setFields d (kv :: rest) = Doc.setFields (d.setField kv.1 kv.2) rest := rfl
    rw [hrw, ih (d.setField kv.1 kv.2) (fun kv' h' => h kv' (List.mem_cons_of_mem _ h'))]
    exact getField_setField_ne d kv.1 k kv.2
      (Ne.symm (h kv (List.mem_cons_self _ _)))

theorem getField_setFields_mem (d : Doc) (upd : Doc) (k : String) (v : Val)
    (hnd : (upd.map Prod.fst).Nodup) (hmem : (k, v) ∈ upd) :
    (d.setFields upd).getField k = some v := by
  induction upd generalizing d with
  | nil => cases hmem
  | cons kv rest ih =>
    have hrw : Doc.setFields d (kv :: rest) = Doc.setFields (d.setField kv.1 kv.2) rest := rfl
    simp only [List.map_cons, List.nodup_cons] at hnd
    rcases List.mem_cons.mp hmem with hh | hh
    · rw [hrw, getField_setFields_of_forall_ne]
      · rw [← hh]
        exact getField_setField_self d k v
      · intro kv' h' he
        rw [← hh] at hnd
        have hm : kv'.1 ∈ List.map Prod.fst rest := List.mem_map_of_mem _ h'
        rw [he] at hm
        exact hnd.1 hm
    · rw [hrw]
      exact ih _ hnd.2 hh

theorem getField_removeField_self (d : Doc) (k : String) :
    (d.removeField k).getField k = none := by
  induction d with
  | nil => rfl
  | cons kv rest ih =>
    obtain ⟨k0, v0⟩ := kv
    simp only [Doc.removeField]
    by_cases h : k0 = k
    · simp [h, ih]
    · simp [h, ih]

theorem getField_removeField_ne (d : Doc) (k k' : String) (h : k' ≠ k) :
    (d.removeField k).getField k' = d.getField k' := by
  induction d with
  | nil => rfl
  | cons kv rest ih =>
    obtain ⟨k0, v0⟩ := kv
    simp only [Doc.removeField]
    by_cases h0 : k0 = k
    · subst h0
      simp [Ne.symm h, ih]
    · by_cases h1 : k0 = k'
      · subst h1
        simp [h0, ih]
      · simp [h0, h1, ih]

theorem forall_removeField_ne (d : Doc) (k : String) :
    ∀ kv ∈ d.removeField k, kv.1 ≠ k := by
  induction d with
  | nil => intro kv h; cases h
  | cons kv0 rest ih =>
    obtain ⟨k0, v0⟩ := kv0
    simp only [Doc.removeField]
    by_cases h0 : k0 = k
    · simp only [h0, if_pos]
      exact ih
    · simp only [h0, if_neg, not_false_iff]
      intro kv h
      rcases List.mem_cons.mp h with hh | hh
      · subst hh
        exact h0
      · exact ih kv hh

theorem mem_insertByDesc {x d : Doc} {l : List Doc} :
    x ∈ insertByDesc d l ↔ x = d ∨ x ∈ l := by
  induction l with
  | nil => simp [insertByDesc]
  | cons e rest ih =>
    simp only [insertByDesc]
    split
    · simp
    · simp only [List.mem_cons, ih]
      tauto

theorem mem_sortByCreatedAtDesc {x : Doc} {l : List Doc} :
    x ∈ sortByCreatedAtDesc l ↔ x ∈ l := by
  induction l with
  | nil => simp [sortByCreatedAtDesc]
  | cons e rest ih =>
    simp only [sortByCreatedAtDesc, List.foldr_cons] at *
    rw [mem_insertByDesc, ih]
    simp

theorem updateFirst_of_any_eq_false {p : Doc → Bool} {f : Doc → Doc}
    {l : List Doc} (h : l.any p = false) : updateFirst p f l = l := by
  induction l with
  | nil => rfl
  | cons d rest ih =>
    simp only [List.any_cons, Bool.or_eq_false_iff] at h
    simp [updateFirst, h.1, ih h.2]

theorem updateFirst_decomp {p : Doc → Bool} {f : Doc → Doc} {l : List Doc}
    (h : l.any p = true) :
    ∃ l₁ a l₂, l = l₁ ++ a :: l₂ ∧ (∀ x ∈ l₁, p x = false) ∧ p a = true ∧
      updateFirst p f l = l₁ ++ f a :: l₂ := by
  induction l with
  | nil => simp at h
  | cons d rest ih =>
    by_cases hd : p d
    · exact ⟨[], d, rest, rfl, by simp, hd, by simp [updateFirst, hd]⟩
    · have hrest : rest.any p = true := by
        simpa [hd] using h
      obtain ⟨l₁, a, l₂, e1, e2, e3, e4⟩ := ih hrest
      refine ⟨d :: l₁, a, l₂, by simp [e1], ?_, e3, by simp [updateFirst, hd, e4]⟩
      intro x hx
      rcases List.mem_cons.mp hx with hh | hh
      · subst hh
        simpa using hd
      · exact e2 x hh

theorem map_updateFirst {γ : Type} (g : Doc → γ) {p : Doc → Bool}
    {f : Doc → Doc} (hgf : ∀ d, g (f d) = g d) (l : List Doc) :
    (updateFirst p f l).map g = l.map g := by
  induction l with
  | nil => rfl
  | cons d rest ih =>
    by_cases hd : p d <;> simp [updateFirst, hd, hgf, ih]

theorem deleteFirst_of_any_eq_false {p : Doc → Bool} {l : List Doc}
    (h : l.any p = false) : deleteFirst p l = l := by
  induction l with
  | nil => rfl
  | cons d rest ih =>
    simp only [List.any_cons, Bool.or_eq_false_iff] at h
    simp [deleteFirst, h.1, ih h.2]

theorem deleteFirst_decomp {p : Doc → Bool} {l : List Doc}
    (h : l.any p = true) :
    ∃ l₁ a l₂, l = l₁ ++ a :: l₂ ∧ (∀ x ∈ l₁, p x = false) ∧ p a = true ∧
      deleteFirst p l = l₁ ++ l₂ := by
  induction l with
  | nil => simp at h
  | cons d rest ih =>
    by_cases hd : p d
    · exact ⟨[], d, rest, rfl, by simp, hd, by simp [deleteFirst, hd]⟩
    · have hrest : rest.any p = true := by
        simpa [hd] using h
      obtain ⟨l₁, a, l₂, e1, e2, e3, e4⟩ := ih hrest
      refine ⟨d :: l₁, a, l₂, by simp [e1], ?_, e3, by simp [deleteFirst, hd, e4]⟩
      intro x hx
      rcases List.mem_cons.mp hx with hh | hh
      · subst hh
        simpa using hd
      · exact e2 x hh

theorem deleteFirst_sublist (p : Doc → Bool) (l : List Doc) :
    (deleteFirst p l).Sublist l := by
  induction l with
  | nil => exact List.Sublist.slnil
  | cons d rest ih =>
    by_cases hd : p d
    · simp only [deleteFirst, hd, if_pos]
      exact List.Sublist.cons d (List.Sublist.refl rest)
    · simp only [deleteFirst, hd]
      exact List.Sublist.cons₂ d ih

theorem mem_of_seqOption_some {α β : Type} {f : α → Option β} {l : List α}
    {l' : List β} (h : seqOption f l = some l') :
    ∀ b ∈ l', ∃ a ∈ l, f a = some b := by
  induction l generalizing l' with
  | nil =>
    simp only [seqOption, Option.some.injEq] at h
    subst h
    simp
  | cons a rest ih =>
    simp only [seqOption] at h
    cases hfa : f a with
    | none => rw [hfa] at h; exact absurd h (by simp)
    | some b0 =>
      cases hrest : seqOption f rest with
      | none => rw [hfa, hrest] at h; exact absurd h (by simp)
      | some tl =>
        rw [hfa, hrest] at h
        simp only [Option.some.injEq] at h
        subst h
        intro b hb
        rcases List.mem_cons.mp hb with hh | hh
        · exact ⟨a, List.mem_cons_self _ _, hh ▸ hfa⟩
        · obtain ⟨a', ha', hfa'⟩ := ih hrest b hh
          exact ⟨a', List.mem_cons_of_mem _ ha', hfa'⟩

theorem seqOption_some_of_forall {α β : Type} {f : α → Option β} {l : List α}
    (h : ∀ a ∈ l, (f a).isSome) : (seqOption f l).isSome := by
  induction l with
  | nil => simp [seqOption]
  | cons a rest ih =>
    have ha := h a (List.mem_cons_self _ _)
    have hrest := ih (fun a' h' => h a' (List.mem_cons_of_mem _ h'))
    simp only [seqOption]
    cases hfa : f a with
    | none => rw [hfa] at ha; cases ha
    | some b =>
      cases hr : seqOption f rest with
      | none => rw [hr] at hrest; cases hrest
      | some tl => simp

theorem idFilter_eq_getField {id : String} {d : Doc} :
    idFilter id d = true ↔ d.getField "_id" = some (.vOid (lowerHex id)) := by
  unfold idFilter matchesField normGet
  cases h : d.getField "_id" with
  | none => simp
  | some v => simp

/-! ### The review-uniqueness invariant -/

/-- The (property_id, reviewer_email) key of a review document, with a
missing field normalised to null exactly as the duplicate-check query
treats it. -/
def reviewKey (r : Doc) : Val × Val :=
  (normGet r "property_id", normGet r "reviewer_email")

/-- At most one review per (property_id, reviewer_email) pair. -/
def dupFree (rs : List Doc) : Prop :=
  (rs.map reviewKey).Nodup

/-- Pairwise-distinct `_id` fields (MongoDB's store-level primary-key
uniqueness, which every collection satisfies). -/
def uniqueIds (l : List Doc) : Prop :=
  l.Pairwise (fun a b => Doc.getField a "_id" ≠ Doc.getField b "_id")

theorem reviewDupFilter_iff {id : String} {body r : Doc} :
    reviewDupFilter id body r = true ↔
      reviewKey r = (.vStr id, normGet body "reviewer_email") := by
  unfold reviewDupFilter matchesField reviewKey
  simp [Prod.ext_iff]

theorem reviewKey_reviewUpdate (body : Doc) (now : String) (d : Doc) :
    reviewKey (reviewUpdate body now d) = reviewKey d := by
  unfold reviewKey reviewUpdate normGet
  rw [getField_setField_ne _ _ _ _ (by decide),
    getField_setField_ne _ _ _ _ (by decide),
    getField_setField_ne _ _ _ _ (by decide),
    getField_setField_ne _ _ _ _ (by decide),
    getField_setField_ne _ _ _ _ (by decide),
    getField_setField_ne _ _ _ _ (by decide)]

theorem reviewKey_insert (id : String) (body : Doc) (now fresh : String) :
    reviewKey (("_id", .vOid fresh) :: reviewDataOf id body now) =
      (.vStr id, normGet body "reviewer_email") := by
  simp [reviewKey, reviewDataOf, normGet]

/-! ### Store projections of each handler -/

theorem getProperty_store (id : String) (st : Store) :
    (getProperty id st).store = st := by
  unfold getProperty
  split
  · rfl
  · split <;> rfl

theorem myPropertyRatings_store (email : String) (st : Store) :
    (myPropertyRatings email st).store = st := by
  simp only [myPropertyRatings]
  split
  · rfl
  · split <;> rfl

theorem myRatings_store (email : String) (st : Store) :
    (myRatings email st).store = st := by
  simp only [myRatings]
  split <;> rfl

theorem userTestimonial_store (email : String) (st : Store) :
    (userTestimonial email st).store = st := by
  unfold userTestimonial
  split <;> rfl

theorem putProperty_reviews (id : String) (body : Doc) (st : Store) :
    (putProperty id body st).store.reviews = st.reviews := by
  simp only [putProperty]
  split
  · rfl
  · split <;> rfl

theorem deleteProperty_reviews (id : String) (st : Store) :
    (deleteProperty id st).store.reviews = st.reviews := by
  simp only [deleteProperty]
  split
  · rfl
  · split <;> rfl

theorem postTestimonial_reviews (body : Doc) (fresh : String) (st : Store) :
    (postTestimonial body fresh st).store.reviews = st.reviews := by
  unfold postTestimonial
  split <;> rfl

theorem putTestimonial_reviews (id : String) (body : Doc) (now : String)
    (st : Store) :
    (putTestimonial id body now st).store.reviews = st.reviews := by
  simp only [putTestimonial]
  split
  · rfl
  · split <;> rfl

theorem deleteTestimonial_reviews (id : String) (st : Store) :
    (deleteTestimonial id st).store.reviews = st.reviews := by
  simp only [deleteTestimonial]
  split
  · rfl
  · split <;> rfl

theorem putReview_reviews (id : String) (body : Doc) (now : String)
    (st : Store) :
    (putReview id body now st).store.reviews =
      if objectIdIsValid id then
        updateFirst (idFilter id) (reviewUpdate body now) st.reviews
      else st.reviews := by
  unfold putReview
  cases h : objectIdIsValid id with
  | false => simp [h]
  | true => simp [h]; split <;> rfl

theorem deleteReview_reviews (id : String) (st : Store) :
    (deleteReview id st).store.reviews =
      if objectIdIsValid id then deleteFirst (idFilter id) st.reviews
      else st.reviews := by
  unfold deleteReview
  cases h : objectIdIsValid id with
  | false => simp [h]
  | true => simp [h]; split <;> rfl

/-! ### Preservation of the review-uniqueness invariant -/

theorem dupFree_postReview (id : String) (body : Doc) (now fresh : String)
    (st : Store) (h : dupFree st.reviews) :
    dupFree (postReview id body now fresh st).store.reviews := by
  unfold postReview
  cases hfind : st.reviews.find? (reviewDupFilter id body) with
  | some r => simpa using h
  | none =>
    have hforall := List.find?_eq_none.mp hfind
    simp only [dupFree, List.map_append, List.map_cons, List.map_nil]
    rw [List.nodup_append]
    refine ⟨h, List.nodup_singleton _, ?_⟩
    intro key hkey hkey1
    simp only [List.mem_map] at hkey
    obtain ⟨r, hr, hkr⟩ := hkey
    simp only [List.mem_singleton] at hkey1
    rw [hkey1, reviewKey_insert] at hkr
    exact hforall r hr (reviewDupFilter_iff.mpr hkr)

theorem dupFree_putReview (id : String) (body : Doc) (now : String)
    (st : Store) (h : dupFree st.reviews) :
    dupFree (putReview id body now st).store.reviews := by
  rw [dupFree, putReview_reviews]
  split
  · rw [map_updateFirst reviewKey (reviewKey_reviewUpdate body now)]
    exact h
  · exact h

theorem dupFree_deleteReview (id : String) (st : Store)
    (h : dupFree st.reviews) :
    dupFree (deleteReview id st).store.reviews := by
  rw [dupFree, deleteReview_reviews]
  split
  · exact List.Nodup.sublist
      (List.Sublist.map reviewKey (deleteFirst_sublist _ _)) h
  · exact h

/-! ### Fixtures for concrete witnesses -/

def fixOid1 : String := "aaaaaaaaaaaaaaaaaaaaaaaa"

def fixOid2 : String := "bbbbbbbbbbbbbbbbbbbbbbbb"

def fixOid3 : String := "cccccccccccccccccccccccc"

def fixRev : Doc :=
  [("_id", .vOid fixOid2), ("property_id", .vStr fixOid1),
   ("reviewer_email", .vStr "u@x.com"), ("created_at", .vStr "2024-01-01")]

def fixStore : Store := ⟨[], [fixRev], []⟩

/-! ### Claim C1 -/

/-- C1: if the store contains a review with a given
(property_id, reviewer_email) pair, POSTing a review for the same property
id and reviewer email answers 400 and leaves the store unchanged; and,
sequentially, every route handler preserves "at most one review per
(property_id, reviewer_email) pair". -/
theorem review_uniqueness_preserved (ctx : Ctx) (req : Request) (st : Store)
    (id : String) (body : Doc) :
    ((∃ r ∈ st.reviews,
        reviewKey r = (.vStr id, normGet body "reviewer_email")) →
      (postReview id body ctx.now ctx.fresh st).status = 400 ∧
        (postReview id body ctx.now ctx.fresh st).store = st) ∧
    (dupFree st.reviews → dupFree (handle ctx req st).store.reviews) := by
  constructor
  · rintro ⟨r, hr, hkey⟩
    have hsome : (st.reviews.find? (reviewDupFilter id body)).isSome := by
      rw [List.find?_isSome]
      exact ⟨r, hr, reviewDupFilter_iff.mpr hkey⟩
    unfold postReview
    cases hfind : st.reviews.find? (reviewDupFilter id body) with
    | none => rw [hfind] at hsome; cases hsome
    | some r' => simp [hfind]
  · intro h
    cases req with
    | listProperties => exact h
    | getProperty id' =>
      simp only [handle]
      rw [getProperty_store]
      exact h
    | myProperties email => exact h
    | postProperty body' => exact h
    | putProperty id' body' =>
      simp only [handle]
      rw [putProperty_reviews]
      exact h
    | deleteProperty id' =>
      simp only [handle]
      rw [deleteProperty_reviews]
      exact h
    | myPropertyRatings email =>
      simp only [handle]
      rw [myPropertyRatings_store]
      exact h
    | myRatings email =>
      simp only [handle]
      rw [myRatings_store]
      exact h
    | propertyReviews id' => exact h
    | postReview id' body' => exact dupFree_postReview id' body' ctx.now ctx.fresh st h
    | putReview id' body' => exact dupFree_putReview id' body' ctx.now st h
    | deleteReview id' => exact dupFree_deleteReview id' st h
    | listTestimonials => exact h
    | userTestimonial email =>
      simp only [handle]
      rw [userTestimonial_store]
      exact h
    | postTestimonial body' =>
      simp only [handle]
      rw [postTestimonial_reviews]
      exact h
    | putTestimonial id' body' =>
      simp only [handle]
      rw [putTestimonial_reviews]
      exact h
    | deleteTestimonial id' =>
      simp only [handle]
      rw [deleteTestimonial_reviews]
      exact h
    | home => exact h

/-- C1 witness at a concrete store holding one review for
(fixOid1, "u@x.com"). -/
theorem review_uniqueness_preserved_witness :
    (postReview fixOid1 [("reviewer_email", .vStr "u@x.com")] "2024"
        fixOid3 fixStore).status = 400 ∧
    (postReview fixOid1 [("reviewer_email", .vStr "u@x.com")] "2024"
        fixOid3 fixStore).store = fixStore ∧
    dupFree (handle ⟨"2024", fixOid3⟩ (.deleteReview fixOid2)
        fixStore).store.reviews := by
  have h := review_uniqueness_preserved ⟨"2024", fixOid3⟩
    (.deleteReview fixOid2) fixStore fixOid1
    [("reviewer_email", .vStr "u@x.com")]
  have h1 := h.1 ⟨fixRev, by decide, by decide⟩
  exact ⟨h1.1, h1.2, h.2 (by unfold dupFree; decide)⟩

/-! ### Claim C2 -/

/-- C2: an id that is not a 24-hex-character string makes
GET/PUT/DELETE `/properties/:id` and PUT/DELETE `/reviews/:id` answer 400
with the store untouched and no store operation performed (empty op log). -/
theorem malformed_id_rejected (id : String) (body : Doc) (now : String)
    (st : Store) (h : objectIdIsValid id = false) :
    getProperty id st = ⟨400, msgBody "Invalid property ID", st, []⟩ ∧
    putProperty id body st = ⟨400, msgBody "Invalid property ID", st, []⟩ ∧
    deleteProperty id st = ⟨400, msgBody "Invalid property ID", st, []⟩ ∧
    putReview id body now st = ⟨400, msgBody "Invalid review ID", st, []⟩ ∧
    deleteReview id st = ⟨400, msgBody "Invalid review ID", st, []⟩ := by
  unfold getProperty putProperty deleteProperty putReview deleteReview
  simp [h]

/-- C2 witness at the malformed id "not-an-id". -/
theorem malformed_id_rejected_witness :
    objectIdIsValid "not-an-id" = false ∧
    getProperty "not-an-id" fixStore =
      ⟨400, msgBody "Invalid property ID", fixStore, []⟩ ∧
    putProperty "not-an-id" [] fixStore =
      ⟨400, msgBody "Invalid property ID", fixStore, []⟩ ∧
    deleteProperty "not-an-id" fixStore =
      ⟨400, msgBody "Invalid property ID", fixStore, []⟩ ∧
    putReview "not-an-id" [] "2024" fixStore =
      ⟨400, msgBody "Invalid review ID", fixStore, []⟩ ∧
    deleteReview "not-an-id" fixStore =
      ⟨400, msgBody "Invalid review ID", fixStore, []⟩ := by
  have h := malformed_id_rejected "not-an-id" [] "2024" fixStore (by decide)
  exact ⟨by decide, h.1, h.2.1, h.2.2.1, h.2.2.2.1, h.2.2.2.2⟩

/-! ### Claim C8 -/

/-- C8: the testimonial mutation routes perform no id-format validation;
for an id that is neither a 24-hex-character string nor 12 characters long
the ObjectId constructor throws inside the handler and the catch-all error
boundary answers 500 (so neither 400 nor 404), leaving the store unchanged.
(In the embedded driver the 24-hex check alone already decides the failure;
the 12-character hypothesis only narrows the claim's scope to inputs that
fail under every driver generation.) -/
theorem testimonial_malformed_id_500 (id : String) (body : Doc)
    (now : String) (st : Store) (h24 : objectIdIsValid id = false)
    (h12 : id.length ≠ 12) :
    putTestimonial id body now st = ⟨500, errBody oidErrMsg, st, []⟩ ∧
    deleteTestimonial id st = ⟨500, errBody oidErrMsg, st, []⟩ := by
  have hmk : makeOid id = none := by
    unfold makeOid
    simp [h24]
  unfold putTestimonial deleteTestimonial
  rw [hmk]
  exact ⟨rfl, rfl⟩

/-- C8 witness at the malformed id "zz" (neither 24-hex nor 12 chars). -/
theorem testimonial_malformed_id_500_witness :
    objectIdIsValid "zz" = false ∧ "zz".length ≠ 12 ∧
    putTestimonial "zz" [] "2024" fixStore =
      ⟨500, errBody oidErrMsg, fixStore, []⟩ ∧
    deleteTestimonial "zz" fixStore = ⟨500, errBody oidErrMsg, fixStore, []⟩ := by
  have h := testimonial_malformed_id_500 "zz" [] "2024" fixStore
    (by decide) (by decide)
  exact ⟨by decide, by decide, h.1, h.2⟩

/-! ### Claim C4 -/

/-- C4: the auth guard on protected routes.  With no (or a falsy) bearer
token the response is 401 with the "No token provided" message and the
handler is not invoked (the result is the same for every handler); with a
token the verifier rejects, 401 with "Invalid token" and the verifier's
error message, handler again not invoked; with a verified token the
handler runs on the decoded identity. -/
theorem auth_gate (verify : String → Except String Doc)
    (hdr : Option String) (st : Store) :
    (extractBearer hdr = none →
      ∀ handler : Doc → RouteResult,
        runProtected verify hdr st handler =
          ⟨401, .obj [("message", .vStr "No token provided")], st, []⟩) ∧
    (∀ t msg, extractBearer hdr = some t → verify t = .error msg →
      ∀ handler : Doc → RouteResult,
        runProtected verify hdr st handler =
          ⟨401, .obj [("message", .vStr "Invalid token"),
                      ("error", .vStr msg)], st, []⟩) ∧
    (∀ t u, extractBearer hdr = some t → verify t = .ok u →
      ∀ handler : Doc → RouteResult,
        runProtected verify hdr st handler = handler u) := by
  refine ⟨?_, ?_, ?_⟩
  · intro h handler
    unfold runProtected verifyTokenStep
    rw [h]
  · intro t msg h1 h2 handler
    unfold runProtected verifyTokenStep
    rw [h1]
    dsimp only
    rw [h2]
  · intro t u h1 h2 handler
    unfold runProtected verifyTokenStep
    rw [h1]
    dsimp only
    rw [h2]

/-- A concrete token verifier: accepts exactly the token "good". -/
def fixVerify (t : String) : Except String Doc :=
  if t = "good" then .ok [("email", .vStr "u@x.com")] else .error "bad token"

/-- C4 witness: missing header, rejected token, and accepted token against
the concrete verifier. -/
theorem auth_gate_witness :
    runProtected fixVerify none fixStore (fun _ => homeRoute fixStore) =
      ⟨401, .obj [("message", .vStr "No token provided")], fixStore, []⟩ ∧
    runProtected fixVerify (some "Bearer bad") fixStore
        (fun _ => homeRoute fixStore) =
      ⟨401, .obj [("message", .vStr "Invalid token"),
                  ("error", .vStr "bad token")], fixStore, []⟩ ∧
    runProtected fixVerify (some "Bearer good") fixStore
        (fun _ => homeRoute fixStore) = homeRoute fixStore := by
  refine ⟨(auth_gate fixVerify none fixStore).1 rfl _, ?_, ?_⟩
  · exact (auth_gate fixVerify (some "Bearer bad") fixStore).2.1 "bad"
      "bad token" (by decide) rfl _
  · exact (auth_gate fixVerify (some "Bearer good") fixStore).2.2 "good"
      [("email", .vStr "u@x.com")] (by decide) rfl _

/-! ### Claim C7 -/

theorem deleteProperty_parts (id : String) (st : Store)
    (hv : objectIdIsValid id = true) :
    (deleteProperty id st).status =
      (if st.properties.any (idFilter id) then 200 else 404) ∧
    (deleteProperty id st).body =
      (if st.properties.any (idFilter id) then
        msgBody "Property deleted successfully" else
        msgBody "Property not found") ∧
    (deleteProperty id st).store.properties =
      deleteFirst (idFilter id) st.properties := by
  unfold deleteProperty
  cases hany : st.properties.any (idFilter id) <;> simp [hv, hany]

theorem deleteReview_parts (id : String) (st : Store)
    (hv : objectIdIsValid id = true) :
    (deleteReview id st).status =
      (if st.reviews.any (idFilter id) then 200 else 404) ∧
    (deleteReview id st).body =
      (if st.reviews.any (idFilter id) then
        msgBody "Review deleted successfully" else
        msgBody "Review not found") ∧
    (deleteReview id st).store.reviews =
      deleteFirst (idFilter id) st.reviews := by
  unfold deleteReview
  cases hany : st.reviews.any (idFilter id) <;> simp [hv, hany]

theorem putProperty_status (id : String) (body : Doc) (st : Store)
    (hv : objectIdIsValid id = true) :
    (putProperty id body st).status =
      (if st.properties.any (idFilter id) then 200 else 404) := by
  unfold putProperty
  cases hany : st.properties.any (idFilter id) <;> simp [hv, hany]

theorem putReview_status (id : String) (body : Doc) (now : String)
    (st : Store) (hv : objectIdIsValid id = true) :
    (putReview id body now st).status =
      (if st.reviews.any (idFilter id) then 200 else 404) := by
  unfold putReview
  cases hany : st.reviews.any (idFilter id) <;> simp [hv, hany]

theorem getProperty_status (id : String) (st : Store)
    (hv : objectIdIsValid id = true) :
    (getProperty id st).status =
      (if st.properties.any (idFilter id) then 200 else 404) := by
  unfold getProperty
  cases hfind : st.properties.find? (idFilter id) with
  | none =>
    have : st.properties.any (idFilter id) = false := by
      rw [List.any_eq_false]
      exact List.find?_eq_none.mp hfind
    simp [hv, hfind, this]
  | some d =>
    have : st.properties.any (idFilter id) = true := by
      rw [List.any_eq_true]
      exact ⟨d, List.mem_of_find?_eq_some hfind, List.find?_some hfind⟩
    simp [hv, hfind, this]

theorem deleteFirst_no_match_left {l : List Doc} (id : String)
    (hu : uniqueIds l) (h : l.any (idFilter id) = true) :
    (deleteFirst (idFilter id) l).any (idFilter id) = false := by
  obtain ⟨l₁, a, l₂, e1, e2, e3, e4⟩ := deleteFirst_decomp h
  rw [e4, List.any_eq_false]
  intro x hx
  rcases List.mem_append.mp hx with hx | hx
  · simpa using e2 x hx
  · intro hpx
    have ha := idFilter_eq_getField.mp e3
    have hxid := idFilter_eq_getField.mp hpx
    rw [e1] at hu
    unfold uniqueIds at hu
    rw [List.pairwise_append] at hu
    have hcons := hu.2.1
    rw [List.pairwise_cons] at hcons
    exact hcons.1 x hx (ha.trans hxid.symm)

/-- C7: with a valid id, DELETE answers 404 exactly when no document with
that identifier is in the collection — in particular a second DELETE of the
same id after a successful one answers 404 (given the store's primary-key
uniqueness) — and 200 with a confirmation message when a document was
deleted; GET and PUT likewise answer 404 exactly on absent identifiers. -/
theorem delete_404_iff_absent (id : String) (body : Doc) (now : String)
    (st : Store) (hv : objectIdIsValid id = true) :
    ((deleteProperty id st).status = 404 ↔
      ¬∃ d ∈ st.properties, idFilter id d = true) ∧
    (((deleteProperty id st).status = 200 ∧
        (deleteProperty id st).body = msgBody "Property deleted successfully") ↔
      ∃ d ∈ st.properties, idFilter id d = true) ∧
    (uniqueIds st.properties → (deleteProperty id st).status = 200 →
      (deleteProperty id (deleteProperty id st).store).status = 404) ∧
    ((deleteReview id st).status = 404 ↔
      ¬∃ d ∈ st.reviews, idFilter id d = true) ∧
    (((deleteReview id st).status = 200 ∧
        (deleteReview id st).body = msgBody "Review deleted successfully") ↔
      ∃ d ∈ st.reviews, idFilter id d = true) ∧
    (uniqueIds st.reviews → (deleteReview id st).status = 200 →
      (deleteReview id (deleteReview id st).store).status = 404) ∧
    ((getProperty id st).status = 404 ↔
      ¬∃ d ∈ st.properties, idFilter id d = true) ∧
    ((putProperty id body st).status = 404 ↔
      ¬∃ d ∈ st.properties, idFilter id d = true) ∧
    ((putReview id body now st).status = 404 ↔
      ¬∃ d ∈ st.reviews, idFilter id d = true) := by
  obtain ⟨hdps, hdpb, hdpst⟩ := deleteProperty_parts id st hv
  obtain ⟨hdrs, hdrb, hdrst⟩ := deleteReview_parts id st hv
  refine ⟨?_, ?_, ?_, ?_, ?_, ?_, ?_, ?_, ?_⟩
  · rw [hdps, ← List.any_eq_true]
    cases hany : st.properties.any (idFilter id) <;> simp [hany]
  · rw [hdps, hdpb, ← List.any_eq_true]
    cases hany : st.properties.any (idFilter id) <;> simp [hany]
  · intro hu h200
    rw [hdps] at h200
    have hany : st.properties.any (idFilter id) = true := by
      by_contra hc
      rw [Bool.not_eq_true] at hc
      rw [hc] at h200
      cases h200
    have h2 := (deleteProperty_parts id (deleteProperty id st).store hv).1
    rw [h2, hdpst, deleteFirst_no_match_left id hu hany]
    simp
  · rw [hdrs, ← List.any_eq_true]
    cases hany : st.reviews.any (idFilter id) <;> simp [hany]
  · rw [hdrs, hdrb, ← List.any_eq_true]
    cases hany : st.reviews.any (idFilter id) <;> simp [hany]
  · intro hu h200
    rw [hdrs] at h200
    have hany : st.reviews.any (idFilter id) = true := by
      by_contra hc
      rw [Bool.not_eq_true] at hc
      rw [hc] at h200
      cases h200
    have h2 := (deleteReview_parts id (deleteReview id st).store hv).1
    rw [h2, hdrst, deleteFirst_no_match_left id hu hany]
    simp
  · rw [getProperty_status id st hv, ← List.any_eq_true]
    cases hany : st.properties.any (idFilter id) <;> simp [hany]
  · rw [putProperty_status id body st hv, ← List.any_eq_true]
    cases hany : st.properties.any (idFilter id) <;> simp [hany]
  · rw [putReview_status id body now st hv, ← List.any_eq_true]
    cases hany : st.reviews.any (idFilter id) <;> simp [hany]

/-- A concrete property for C7-style witnesses. -/
def fixProp : Doc :=
  [("_id", .vOid fixOid1), ("property_name", .vStr "Villa"),
   ("property_image", .vStr "img.png"),
   ("posted_by", .vDoc [("email", .vStr "o@x.com")])]

/-- A store holding one property, no reviews, no testimonials. -/
def fixPropStore : Store := ⟨[fixProp], [], []⟩

/-- C7 witness: deleting the only property answers 200, deleting again
answers 404; GET of an absent id answers 404. -/
theorem delete_404_iff_absent_witness :
    (deleteProperty fixOid1 fixPropStore).status = 200 ∧
    (deleteProperty fixOid1
      (deleteProperty fixOid1 fixPropStore).store).status = 404 ∧
    (getProperty fixOid3 fixPropStore).status = 404 := by
  have h := delete_404_iff_absent fixOid1 [] "2024" fixPropStore (by decide)
  have h200 : (deleteProperty fixOid1 fixPropStore).status = 200 :=
    (h.2.1.mpr ⟨fixProp, by decide, by decide⟩).1
  have habs := delete_404_iff_absent fixOid3 [] "2024" fixPropStore (by decide)
  refine ⟨h200, h.2.2.1 (by unfold uniqueIds; decide) h200, ?_⟩
  exact habs.2.2.2.2.2.2.1.mpr (by decide)

/-! ### Claim C5 -/

theorem putReview_others (id : String) (body : Doc) (now : String)
    (st : Store) :
    (putReview id body now st).store.properties = st.properties ∧
    (putReview id body now st).store.testimonials = st.testimonials := by
  simp only [putReview]
  split
  · exact ⟨rfl, rfl⟩
  · split <;> exact ⟨rfl, rfl⟩

/-- C5: with a valid review id, PUT `/reviews/:id` answers 404 exactly when
no review matches the id and 200 otherwise; only the first matching review
document changes, and on it exactly `rating`, `review_text` (the body's
values, null when absent) and `updated_at` (the server timestamp) are
written while every other field — `property_id`, `reviewer_email`,
`reviewer_name`, `created_at` included — keeps its value; the other
collections are untouched. -/
theorem review_update_frame (id : String) (body : Doc) (now : String)
    (st : Store) (hv : objectIdIsValid id = true) :
    ((putReview id body now st).status = 404 ↔
      ¬∃ r ∈ st.reviews, idFilter id r = true) ∧
    ((putReview id body now st).status = 200 ↔
      ∃ r ∈ st.reviews, idFilter id r = true) ∧
    (putReview id body now st).store.properties = st.properties ∧
    (putReview id body now st).store.testimonials = st.testimonials ∧
    (putReview id body now st).store.reviews =
      updateFirst (idFilter id) (reviewUpdate body now) st.reviews ∧
    ((putReview id body now st).status = 404 →
      (putReview id body now st).store.reviews = st.reviews) ∧
    ((putReview id body now st).status = 200 →
      ∃ pre a post, st.reviews = pre ++ a :: post ∧ idFilter id a = true ∧
        (putReview id body now st).store.reviews =
          pre ++ reviewUpdate body now a :: post) ∧
    (∀ d : Doc, ∀ k : String, k ≠ "rating" → k ≠ "review_text" →
      k ≠ "updated_at" →
      (reviewUpdate body now d).getField k = d.getField k) ∧
    (∀ d : Doc,
      (reviewUpdate body now d).getField "rating" =
          some (normGet body "rating") ∧
        (reviewUpdate body now d).getField "review_text" =
          some (normGet body "review_text") ∧
        (reviewUpdate body now d).getField "updated_at" =
          some (.vStr now)) := by
  have hst := putReview_status id body now st hv
  have hrev : (putReview id body now st).store.reviews =
      updateFirst (idFilter id) (reviewUpdate body now) st.reviews := by
    rw [putReview_reviews]
    simp [hv]
  refine ⟨?_, ?_, (putReview_others id body now st).1,
    (putReview_others id body now st).2, hrev, ?_, ?_, ?_, ?_⟩
  · rw [hst, ← List.any_eq_true]
    cases hany : st.reviews.any (idFilter id) <;> simp [hany]
  · rw [hst, ← List.any_eq_true]
    cases hany : st.reviews.any (idFilter id) <;> simp [hany]
  · intro h404
    rw [hst] at h404
    have hany : st.reviews.any (idFilter id) = false := by
      by_contra hc
      rw [Bool.not_eq_false] at hc
      rw [hc] at h404
      cases h404
    rw [hrev, updateFirst_of_any_eq_false hany]
  · intro h200
    rw [hst] at h200
    have hany : st.reviews.any (idFilter id) = true := by
      by_contra hc
      rw [Bool.not_eq_true] at hc
      rw [hc] at h200
      cases h200
    obtain ⟨pre, a, post, e1, _, e3, e4⟩ :=
      updateFirst_decomp (f := reviewUpdate body now) hany
    exact ⟨pre, a, post, e1, e3, by rw [hrev, e4]⟩
  · intro d k h1 h2 h3
    unfold reviewUpdate
    rw [getField_setField_ne _ _ _ _ h3, getField_setField_ne _ _ _ _ h2,
      getField_setField_ne _ _ _ _ h1]
  · intro d
    unfold reviewUpdate
    refine ⟨?_, ?_, getField_setField_self _ _ _⟩
    · rw [getField_setField_ne _ _ _ _ (by decide),
        getField_setField_ne _ _ _ _ (by decide)]
      exact getField_setField_self _ _ _
    · rw [getField_setField_ne _ _ _ _ (by decide)]
      exact getField_setField_self _ _ _

/-- C5 witness: updating the only review of the concrete store. -/
theorem review_update_frame_witness :
    (putReview fixOid2 [("rating", .vNum 4)] "2025" fixStore).status = 200 ∧
    (putReview fixOid2 [("rating", .vNum 4)] "2025" fixStore).store.reviews =
      [reviewUpdate [("rating", .vNum 4)] "2025" fixRev] ∧
    (reviewUpdate [("rating", .vNum 4)] "2025" fixRev).getField
      "reviewer_email" = some (.vStr "u@x.com") := by
  have h := review_update_frame fixOid2 [("rating", .vNum 4)] "2025" fixStore
    (by decide)
  have h200 : (putReview fixOid2 [("rating", .vNum 4)] "2025"
      fixStore).status = 200 :=
    h.2.1.mpr ⟨fixRev, by decide, by decide⟩
  refine ⟨h200, ?_, ?_⟩
  · rw [h.2.2.2.2.1]
    decide
  · rw [h.2.2.2.2.2.2.2.1 fixRev "reviewer_email" (by decide) (by decide)
      (by decide)]
    decide

/-! ### Claim C6 -/

theorem removeField_sublist (d : Doc) (k : String) :
    (d.removeField k).Sublist d := by
  induction d with
  | nil => exact List.Sublist.slnil
  | cons kv rest ih =>
    obtain ⟨k0, v0⟩ := kv
    simp only [Doc.removeField]
    by_cases h : k0 = k
    · simp only [h, if_pos]
      exact List.Sublist.cons _ ih
    · simp only [h, if_neg, not_false_iff]
      exact List.Sublist.cons₂ _ ih

theorem mem_removeField_of_ne {body : Doc} {k : String} {v : Val}
    (kid : String) (hne : k ≠ kid) (h : (k, v) ∈ body) :
    (k, v) ∈ body.removeField kid := by
  induction body with
  | nil => cases h
  | cons kv rest ih =>
    obtain ⟨k0, v0⟩ := kv
    simp only [Doc.removeField]
    rcases List.mem_cons.mp h with hh | hh
    · have hk0 : k0 ≠ kid := by
        rw [show k0 = k from congrArg Prod.fst hh.symm]
        exact hne
      simp only [hk0, if_neg, not_false_iff]
      exact hh ▸ List.mem_cons_self _ _
    · by_cases h0 : k0 = kid
      · simp only [h0, if_pos]
        exact ih hh
      · simp only [h0, if_neg, not_false_iff]
        exact List.mem_cons_of_mem _ (ih hh)

theorem putProperty_others (id : String) (body : Doc) (st : Store) :
    (putProperty id body st).store.testimonials = st.testimonials := by
  simp only [putProperty]
  split
  · rfl
  · split <;> rfl

theorem putProperty_properties (id : String) (body : Doc) (st : Store)
    (hv : objectIdIsValid id = true) :
    (putProperty id body st).store.properties =
      updateFirst (idFilter id)
        (fun d => d.setFields (body.removeField "_id")) st.properties := by
  unfold putProperty
  cases hany : st.properties.any (idFilter id) <;> simp [hv, hany]

/-- C6: with a valid property id, PUT `/properties/:id` strips any
client-supplied `_id` from the payload before the `$set`, so the matched
document's `_id` is unchanged by the update; every other body field is
written with its body value, fields absent from the body keep their
values, only the first matching document changes, and the response is 404
exactly when no document matched. -/
theorem property_update_strips_id (id : String) (body : Doc) (st : Store)
    (hv : objectIdIsValid id = true)
    (hkeys : (body.map Prod.fst).Nodup) :
    ((putProperty id body st).status = 404 ↔
      ¬∃ d ∈ st.properties, idFilter id d = true) ∧
    (putProperty id body st).store.reviews = st.reviews ∧
    (putProperty id body st).store.testimonials = st.testimonials ∧
    (putProperty id body st).store.properties =
      updateFirst (idFilter id)
        (fun d => d.setFields (body.removeField "_id")) st.properties ∧
    (∀ d : Doc,
      (d.setFields (body.removeField "_id")).getField "_id" =
        d.getField "_id") ∧
    (∀ d : Doc, ∀ k v, k ≠ "_id" → (k, v) ∈ body →
      (d.setFields (body.removeField "_id")).getField k = some v) ∧
    (∀ d : Doc, ∀ k, (∀ v, (k, v) ∉ body) →
      (d.setFields (body.removeField "_id")).getField k = d.getField k) ∧
    ((putProperty id body st).status = 200 →
      ∃ pre a post, st.properties = pre ++ a :: post ∧
        idFilter id a = true ∧
        (putProperty id body st).store.properties =
          pre ++ a.setFields (body.removeField "_id") :: post) := by
  have hst := putProperty_status id body st hv
  have hprops := putProperty_properties id body st hv
  refine ⟨?_, putProperty_reviews id body st, putProperty_others id body st,
    hprops, ?_, ?_, ?_, ?_⟩
  · rw [hst, ← List.any_eq_true]
    cases hany : st.properties.any (idFilter id) <;> simp [hany]
  · intro d
    exact getField_setFields_of_forall_ne d _ _ (forall_removeField_ne body "_id")
  · intro d k v hne hmem
    refine getField_setFields_mem d _ k v ?_ (mem_removeField_of_ne "_id" hne hmem)
    exact List.Nodup.sublist
      (List.Sublist.map Prod.fst (removeField_sublist body "_id")) hkeys
  · intro d k hnot
    refine getField_setFields_of_forall_ne d _ _ ?_
    intro kv hkv he
    have hmem : kv ∈ body := List.Sublist.mem hkv (removeField_sublist body "_id")
    exact hnot kv.2 (by rw [← he]; exact hmem)
  · intro h200
    rw [hst] at h200
    have hany : st.properties.any (idFilter id) = true := by
      by_contra hc
      rw [Bool.not_eq_true] at hc
      rw [hc] at h200
      cases h200
    obtain ⟨pre, a, post, e1, _, e3, e4⟩ :=
      updateFirst_decomp (f := fun d => d.setFields (body.removeField "_id")) hany
    exact ⟨pre, a, post, e1, e3, by rw [hprops, e4]⟩

/-- C6 witness: an update whose body tries to overwrite `_id`. -/
theorem property_update_strips_id_witness :
    (putProperty fixOid1 [("_id", .vOid fixOid3), ("property_name", .vStr "New")]
        fixPropStore).status = 200 ∧
    (fixProp.setFields
        (Doc.removeField
          [("_id", .vOid fixOid3), ("property_name", .vStr "New")]
          "_id")).getField "_id" = some (.vOid fixOid1) ∧
    (fixProp.setFields
        (Doc.removeField
          [("_id", .vOid fixOid3), ("property_name", .vStr "New")]
          "_id")).getField "property_name" = some (.vStr "New") := by
  have h := property_update_strips_id fixOid1
    [("_id", .vOid fixOid3), ("property_name", .vStr "New")] fixPropStore
    (by decide) (by decide)
  refine ⟨?_, ?_, ?_⟩
  · rw [putProperty_status fixOid1 _ fixPropStore (by decide)]
    decide
  · rw [h.2.2.2.2.1 fixProp]
    decide
  · exact h.2.2.2.2.2.1 fixProp "property_name" (.vStr "New") (by decide)
      (by decide)

/-! ### Claim C9 -/

/-- C9: the review stored by POST `/properties/:id/reviews` is built only
from the path id (`property_id`), the body's `rating`, `review_text`,
`reviewer_email`, `reviewer_name` (null when absent) and the server clock
(`created_at`), plus the store-assigned `_id`; any other body field —
client-supplied `property_id`, `created_at` or `_id` included — is
discarded. -/
theorem review_insert_shape (id : String) (body : Doc) (now fresh : String)
    (st : Store) :
    ((postReview id body now fresh st).status = 201 →
      (postReview id body now fresh st).store.reviews =
        st.reviews ++ [("_id", .vOid fresh) :: reviewDataOf id body now]) ∧
    ((reviewDataOf id body now).map Prod.fst =
      ["property_id", "rating", "review_text", "reviewer_email",
       "reviewer_name", "created_at"]) ∧
    (reviewDataOf id body now).getField "property_id" = some (.vStr id) ∧
    (reviewDataOf id body now).getField "created_at" = some (.vStr now) ∧
    (reviewDataOf id body now).getField "rating" =
      some (normGet body "rating") ∧
    (reviewDataOf id body now).getField "review_text" =
      some (normGet body "review_text") ∧
    (reviewDataOf id body now).getField "reviewer_email" =
      some (normGet body "reviewer_email") ∧
    (reviewDataOf id body now).getField "reviewer_name" =
      some (normGet body "reviewer_name") ∧
    (∀ body' : Doc,
      normGet body' "rating" = normGet body "rating" →
      normGet body' "review_text" = normGet body "review_text" →
      normGet body' "reviewer_email" = normGet body "reviewer_email" →
      normGet body' "reviewer_name" = normGet body "reviewer_name" →
      reviewDataOf id body' now = reviewDataOf id body now) := by
  refine ⟨?_, by simp [reviewDataOf], by simp [reviewDataOf],
    by simp [reviewDataOf], by simp [reviewDataOf], by simp [reviewDataOf],
    by simp [reviewDataOf], by simp [reviewDataOf], ?_⟩
  · intro h201
    unfold postReview at h201 ⊢
    cases hfind : st.reviews.find? (reviewDupFilter id body) with
    | some r => simp [hfind] at h201
    | none => rfl
  · intro body' h1 h2 h3 h4
    unfold reviewDataOf
    rw [h1, h2, h3, h4]

/-- C9 witness: a body smuggling `property_id`, `_id` and `created_at`. -/
theorem review_insert_shape_witness :
    (postReview fixOid1
        [("property_id", .vStr "HACK"), ("_id", .vOid fixOid3),
         ("created_at", .vStr "1999"), ("rating", .vNum 5)]
        "2024-06-01" fixOid2 fixPropStore).status = 201 ∧
    (postReview fixOid1
        [("property_id", .vStr "HACK"), ("_id", .vOid fixOid3),
         ("created_at", .vStr "1999"), ("rating", .vNum 5)]
        "2024-06-01" fixOid2 fixPropStore).store.reviews =
      [("_id", .vOid fixOid2) ::
        reviewDataOf fixOid1
          [("property_id", .vStr "HACK"), ("_id", .vOid fixOid3),
           ("created_at", .vStr "1999"), ("rating", .vNum 5)] "2024-06-01"] ∧
    (reviewDataOf fixOid1
        [("property_id", .vStr "HACK"), ("_id", .vOid fixOid3),
         ("created_at", .vStr "1999"), ("rating", .vNum 5)]
        "2024-06-01").getField "property_id" = some (.vStr fixOid1) ∧
    (reviewDataOf fixOid1
        [("property_id", .vStr "HACK"), ("_id", .vOid fixOid3),
         ("created_at", .vStr "1999"), ("rating", .vNum 5)]
        "2024-06-01").getField "created_at" = some (.vStr "2024-06-01") := by
  have h := review_insert_shape fixOid1
    [("property_id", .vStr "HACK"), ("_id", .vOid fixOid3),
     ("created_at", .vStr "1999"), ("rating", .vNum 5)]
    "2024-06-01" fixOid2 fixPropStore
  have h201 : (postReview fixOid1
      [("property_id", .vStr "HACK"), ("_id", .vOid fixOid3),
       ("created_at", .vStr "1999"), ("rating", .vNum 5)]
      "2024-06-01" fixOid2 fixPropStore).status = 201 := by decide
  exact ⟨h201, by rw [h.1 h201]; rfl, h.2.2.1, h.2.2.2.1⟩

/-! ### Enrichment lemmas (claims C3 and C10) -/

theorem enrichWith_property_name (property : Option Doc) (rating : Doc) :
    (enrichWith property rating).getField "property_name" =
      some (jsOr (property.bind (fun p => p.getField "property_name"))
        (.vStr "Unknown Property")) := by
  unfold enrichWith
  rw [getField_setField_ne _ _ _ _ (by decide)]
  exact getField_setField_self _ _ _

theorem enrichWith_property_image (property : Option Doc) (rating : Doc) :
    (enrichWith property rating).getField "property_image" =
      some (jsOr (property.bind (fun p => p.getField "property_image"))
        (.vStr "")) :=
  getField_setField_self _ _ _

theorem jsOr_of_truthy {v : Val} (dflt : Val) (h : v.truthy = true) :
    jsOr (some v) dflt = v := by
  simp [jsOr, h]

theorem jsOr_of_not_truthy {v : Val} (dflt : Val) (h : v.truthy = false) :
    jsOr (some v) dflt = dflt := by
  simp [jsOr, h]

theorem jsOr_none (dflt : Val) : jsOr none dflt = dflt := rfl

theorem enrichWith_truthy_name {p : Doc} (rating : Doc) {v : Val}
    (hget : p.getField "property_name" = some v) (hv : v.truthy = true) :
    (enrichWith (some p) rating).getField "property_name" = some v := by
  rw [enrichWith_property_name, Option.some_bind, hget, jsOr_of_truthy _ hv]

theorem enrichWith_truthy_image {p : Doc} (rating : Doc) {v : Val}
    (hget : p.getField "property_image" = some v) (hv : v.truthy = true) :
    (enrichWith (some p) rating).getField "property_image" = some v := by
  rw [enrichWith_property_image, Option.some_bind, hget, jsOr_of_truthy _ hv]

theorem enrichWith_fallback_name {p : Doc} (rating : Doc)
    (h : ∀ v, p.getField "property_name" = some v → v.truthy = false) :
    (enrichWith (some p) rating).getField "property_name" =
      some (.vStr "Unknown Property") := by
  rw [enrichWith_property_name, Option.some_bind]
  cases hget : p.getField "property_name" with
  | none => rw [jsOr_none]
  | some v => rw [jsOr_of_not_truthy _ (h v hget)]

theorem enrichWith_fallback_image {p : Doc} (rating : Doc)
    (h : ∀ v, p.getField "property_image" = some v → v.truthy = false) :
    (enrichWith (some p) rating).getField "property_image" =
      some (.vStr "") := by
  rw [enrichWith_property_image, Option.some_bind]
  cases hget : p.getField "property_image" with
  | none => rw [jsOr_none]
  | some v => rw [jsOr_of_not_truthy _ (h v hget)]

theorem enrichWith_none_fields (rating : Doc) :
    (enrichWith none rating).getField "property_name" =
        some (.vStr "Unknown Property") ∧
      (enrichWith none rating).getField "property_image" =
        some (.vStr "") := by
  constructor
  · rw [enrichWith_property_name]
    rfl
  · rw [enrichWith_property_image]
    rfl

/-! ### Claim C3 -/

/-- A stored property whose `property_name` is present but empty. -/
def cxProp : Doc :=
  [("_id", .vOid fixOid1), ("property_name", .vStr ""),
   ("property_image", .vStr "img.png"),
   ("posted_by", .vDoc [("email", .vStr "o@x.com")])]

/-- A store where `fixRev` references `cxProp`. -/
def cxStore : Store := ⟨[cxProp], [fixRev], []⟩

/-- C3 counterexample: the review's `property_id` identifies the existing
property `cxProp`, whose `property_name` field is the empty string, yet the
enriched entry returned by GET `/my-ratings/:email` carries the fallback
"Unknown Property" — not that field's value — because the handler uses a JS
truthiness fallback, not a presence test. -/
theorem enrichment_exact_equality_fails :
    cxStore.properties = [cxProp] ∧
    normGet fixRev "property_id" = .vStr fixOid1 ∧
    cxProp.getField "_id" = some (.vOid fixOid1) ∧
    cxProp.getField "property_name" = some (.vStr "") ∧
    (myRatings "u@x.com" cxStore).status = 200 ∧
    (myRatings "u@x.com" cxStore).body =
      .arr [Doc.setField
        (Doc.setField fixRev "property_name" (.vStr "Unknown Property"))
        "property_image" (.vStr "img.png")] ∧
    Val.vStr "Unknown Property" ≠ Val.vStr "" := by
  refine ⟨rfl, by decide, by decide, by decide, by decide, by decide, by decide⟩

theorem myRatings_body_arr {email : String} {st : Store} {l : List Doc}
    (h : (myRatings email st).body = RespBody.arr l) :
    seqOption (fun rating =>
        (makeOidFromVal (normGet rating "property_id")).map (fun oid =>
          enrichWith
            (st.properties.find? (fun p => matchesField p "_id" (.vOid oid)))
            rating))
      (st.reviews.filter (fun r =>
        matchesField r "reviewer_email" (.vStr email))) = some l := by
  simp only [myRatings] at h
  split at h
  · cases h
  · rename_i enriched heq
    cases h
    exact heq

theorem myPropertyRatings_body_arr {email : String} {st : Store}
    {l : List Doc} (h : (myPropertyRatings email st).body = RespBody.arr l) :
    (st.properties.filter (fun p => matchesPostedByEmail p email) = [] ∧
      l = []) ∨
    (∃ propertyIds,
      seqOption (fun p => valToString (normGet p "_id"))
        (st.properties.filter (fun p => matchesPostedByEmail p email)) =
          some propertyIds ∧
      l = (sortByCreatedAtDesc (st.reviews.filter (fun r =>
            propertyIds.any (fun pid =>
              matchesField r "property_id" (.vStr pid))))).map
          (fun rating => enrichWith
            ((st.properties.filter (fun p =>
                matchesPostedByEmail p email)).find?
              (fun p => match valToString (normGet p "_id") with
                | some s => strictEqStr (normGet rating "property_id") s
                | none => false)) rating)) := by
  simp only [myPropertyRatings] at h
  split at h
  · rename_i hemp
    left
    refine ⟨List.isEmpty_iff.mp hemp, ?_⟩
    cases h
    rfl
  · split at h
    · cases h
    · rename_i propertyIds heq
      right
      cases h
      exact ⟨propertyIds, heq, rfl⟩

/-- C3 amended: every entry returned by the two enriched listing endpoints
is its review enriched against the endpoint's own property lookup
(`findOne` by ObjectId for `/my-ratings`; an exact string match of
`prop._id.toString()` against the review's `property_id` over the owner's
in-memory property list for `/my-property-ratings`); the enriched
`property_name`/`property_image` equal the found property's fields when
those fields are present with truthy values, and fall back to
"Unknown Property" and "" when the field is missing or falsy, or when no
property is found. -/
theorem enrichment_with_truthy_fallback (email : String) (st : Store) :
    (∀ l, (myRatings email st).body = RespBody.arr l →
      ∀ e ∈ l, ∃ r ∈ st.reviews,
        matchesField r "reviewer_email" (.vStr email) = true ∧
        ∃ oid, makeOidFromVal (normGet r "property_id") = some oid ∧
          e = enrichWith
            (st.properties.find? (fun p => matchesField p "_id" (.vOid oid)))
            r) ∧
    (∀ l, (myPropertyRatings email st).body = RespBody.arr l →
      ∀ e ∈ l, ∃ r ∈ st.reviews,
        e = enrichWith
          ((st.properties.filter (fun p =>
              matchesPostedByEmail p email)).find?
            (fun p =>
              match valToString (normGet p "_id") with
              | some s => strictEqStr (normGet r "property_id") s
              | none => false))
          r) ∧
    (∀ (p rating : Doc) (v : Val),
      p.getField "property_name" = some v → v.truthy = true →
        (enrichWith (some p) rating).getField "property_name" = some v) ∧
    (∀ (p rating : Doc) (v : Val),
      p.getField "property_image" = some v → v.truthy = true →
        (enrichWith (some p) rating).getField "property_image" = some v) ∧
    (∀ (p rating : Doc),
      (∀ v, p.getField "property_name" = some v → v.truthy = false) →
        (enrichWith (some p) rating).getField "property_name" =
          some (.vStr "Unknown Property")) ∧
    (∀ (p rating : Doc),
      (∀ v, p.getField "property_image" = some v → v.truthy = false) →
        (enrichWith (some p) rating).getField "property_image" =
          some (.vStr "")) ∧
    (∀ rating : Doc,
      (enrichWith none rating).getField "property_name" =
          some (.vStr "Unknown Property") ∧
        (enrichWith none rating).getField "property_image" =
          some (.vStr "")) := by
  refine ⟨?_, ?_,
    fun p rating v hget hv => enrichWith_truthy_name rating hget hv,
    fun p rating v hget hv => enrichWith_truthy_image rating hget hv,
    fun p rating h => enrichWith_fallback_name rating h,
    fun p rating h => enrichWith_fallback_image rating h,
    fun rating => enrichWith_none_fields rating⟩
  · intro l hbody e he
    have hseq := myRatings_body_arr hbody
    obtain ⟨rating, hmem, hf⟩ := mem_of_seqOption_some hseq e he
    obtain ⟨hrev, hpred⟩ := List.mem_filter.mp hmem
    obtain ⟨oid, hoid, hef⟩ := Option.map_eq_some'.mp hf
    exact ⟨rating, hrev, hpred, oid, hoid, hef.symm⟩
  · intro l hbody e he
    rcases myPropertyRatings_body_arr hbody with ⟨-, hl⟩ | ⟨pids, -, hl⟩
    · rw [hl] at he
      cases he
    · rw [hl] at he
      obtain ⟨rating, hmem, hef⟩ := List.mem_map.mp he
      have hmem2 := mem_sortByCreatedAtDesc.mp hmem
      obtain ⟨hrev, -⟩ := List.mem_filter.mp hmem2
      exact ⟨rating, hrev, hef.symm⟩

/-- C3 amended witness: the empty-name property triggers the fallback, the
truthy image is copied, and an absent property yields both fallbacks. -/
theorem enrichment_with_truthy_fallback_witness :
    (enrichWith (some cxProp) fixRev).getField "property_name" =
      some (.vStr "Unknown Property") ∧
    (enrichWith (some cxProp) fixRev).getField "property_image" =
      some (.vStr "img.png") ∧
    (enrichWith none fixRev).getField "property_name" =
      some (.vStr "Unknown Property") := by
  have h := enrichment_with_truthy_fallback "u@x.com" cxStore
  refine ⟨h.2.2.2.2.1 cxProp fixRev ?_,
    h.2.2.2.1 cxProp fixRev (.vStr "img.png") (by decide) (by decide),
    (h.2.2.2.2.2.2 fixRev).1⟩
  intro v hv
  have he : cxProp.getField "property_name" = some (Val.vStr "") := by decide
  rw [he] at hv
  rw [← Option.some.inj hv]
  decide

/-! ### Claim C10 -/

/-- C10 counterexample to the claim as stated: `cxProp` is owned by
o@x.com and is matched by the returned review's `property_id`, and its
`property_name` field is present (the empty string) — the property does not
lack the field — yet GET `/my-property-ratings/o@x.com` returns the
fallback "Unknown Property" for that entry, because the handler's `||`
fallback fires on any falsy value, not only on a missing field. -/
theorem owner_fallback_despite_field_present :
    cxStore.properties = [cxProp] ∧
    matchesPostedByEmail cxProp "o@x.com" = true ∧
    cxProp.getField "property_name" = some (.vStr "") ∧
    valToString (normGet cxProp "_id") = some fixOid1 ∧
    normGet fixRev "property_id" = .vStr fixOid1 ∧
    (myPropertyRatings "o@x.com" cxStore).body =
      .arr [Doc.setField
        (Doc.setField fixRev "property_name" (.vStr "Unknown Property"))
        "property_image" (.vStr "img.png")] ∧
    Val.vStr "Unknown Property" ≠ Val.vStr "" := by
  refine ⟨rfl, by decide, by decide, by decide, by decide, by decide,
    by decide⟩

/-- C10 amended: on GET `/my-property-ratings/:email` every returned
entry's review has a `property_id` equal to the string form of the
identifier of a property owned by that email (the reviews query is
restricted to the owner's property-id set); the in-memory lookup therefore
always finds a property — the fallback can never fire because the property
is absent, only because the found property lacks a truthy
`property_name`/`property_image` value (the field missing or falsy, e.g.
the empty string); and when the email owns no properties the response is
the empty array, produced without querying the reviews collection. -/
theorem owner_ratings_scoped (email : String) (st : Store) :
    (st.properties.filter (fun p => matchesPostedByEmail p email) = [] →
      myPropertyRatings email st =
        ⟨200, .arr [], st, [.findQ "properties"]⟩) ∧
    (∀ l, (myPropertyRatings email st).body = RespBody.arr l →
      ∀ e ∈ l, ∃ r ∈ st.reviews,
        (∃ p ∈ st.properties.filter (fun q => matchesPostedByEmail q email),
          ∃ s : String, valToString (normGet p "_id") = some s ∧
            normGet r "property_id" = .vStr s) ∧
        ∃ p', (st.properties.filter (fun q =>
              matchesPostedByEmail q email)).find?
            (fun q => match valToString (normGet q "_id") with
              | some t => strictEqStr (normGet r "property_id") t
              | none => false) = some p' ∧
          e = enrichWith (some p') r ∧
          (∀ v, p'.getField "property_name" = some v → v.truthy = true →
            e.getField "property_name" = some v) ∧
          ((∀ v, p'.getField "property_name" = some v → v.truthy = false) →
            e.getField "property_name" = some (.vStr "Unknown Property")) ∧
          (∀ v, p'.getField "property_image" = some v → v.truthy = true →
            e.getField "property_image" = some v) ∧
          ((∀ v, p'.getField "property_image" = some v → v.truthy = false) →
            e.getField "property_image" = some (.vStr ""))) := by
  constructor
  · intro hemp
    simp only [myPropertyRatings]
    rw [hemp]
    rfl
  · intro l hbody e he
    rcases myPropertyRatings_body_arr hbody with ⟨-, hl⟩ | ⟨pids, hpids, hl⟩
    · rw [hl] at he
      cases he
    · rw [hl] at he
      obtain ⟨rating, hmem, hef⟩ := List.mem_map.mp he
      have hmem2 := mem_sortByCreatedAtDesc.mp hmem
      obtain ⟨hrev, hin⟩ := List.mem_filter.mp hmem2
      obtain ⟨pid, hpidmem, hmatch⟩ := List.any_eq_true.mp hin
      have hpidval : normGet rating "property_id" = .vStr pid := by
        simpa [matchesField] using hmatch
      obtain ⟨p, hpmem, hpstr⟩ := mem_of_seqOption_some hpids pid hpidmem
      have hpredp : (match valToString (normGet p "_id") with
          | some t => strictEqStr (normGet rating "property_id") t
          | none => false) = true := by
        rw [hpstr]
        dsimp only
        rw [hpidval]
        simp [strictEqStr]
      have hfound : ((st.properties.filter (fun q =>
          matchesPostedByEmail q email)).find?
            (fun q => match valToString (normGet q "_id") with
              | some t => strictEqStr (normGet rating "property_id") t
              | none => false)).isSome := by
        rw [List.find?_isSome]
        exact ⟨p, hpmem, hpredp⟩
      obtain ⟨p', hfind⟩ := Option.isSome_iff_exists.mp hfound
      rw [hfind] at hef
      refine ⟨rating, hrev, ⟨p, hpmem, pid, hpstr, hpidval⟩, p', hfind,
        hef.symm, ?_, ?_, ?_, ?_⟩
      · intro v hget hv
        rw [← hef]
        exact enrichWith_truthy_name rating hget hv
      · intro hfal
        rw [← hef]
        exact enrichWith_fallback_name rating hfal
      · intro v hget hv
        rw [← hef]
        exact enrichWith_truthy_image rating hget hv
      · intro hfal
        rw [← hef]
        exact enrichWith_fallback_image rating hfal

/-- A store whose one property (owned by o@x.com) is reviewed by fixRev. -/
def fixOwnerStore : Store := ⟨[fixProp], [fixRev], []⟩

/-- C10 witness: an owner with no properties gets the short-circuited empty
response; for the concrete owner store the returned entry is enriched from
the owner's own property. -/
theorem owner_ratings_scoped_witness :
    myPropertyRatings "nobody@x.com" fixOwnerStore =
      ⟨200, .arr [], fixOwnerStore, [.findQ "properties"]⟩ ∧
    (myPropertyRatings "o@x.com" fixOwnerStore).body =
      .arr [enrichWith (some fixProp) fixRev] ∧
    (enrichWith (some fixProp) fixRev).getField "property_name" =
      some (.vStr "Villa") := by
  have h0 := (owner_ratings_scoped "nobody@x.com" fixOwnerStore).1 (by decide)
  have hb : (myPropertyRatings "o@x.com" fixOwnerStore).body =
      .arr [enrichWith (some fixProp) fixRev] := by decide
  obtain ⟨r, hr, -, p', hfind, hef, hname, -⟩ :=
    (owner_ratings_scoped "o@x.com" fixOwnerStore).2
      [enrichWith (some fixProp) fixRev] hb
      (enrichWith (some fixProp) fixRev) (List.mem_singleton.mpr rfl)
  have hp' : p' = fixProp := by
    have hconc : (fixOwnerStore.properties.filter (fun q =>
        matchesPostedByEmail q "o@x.com")).find?
          (fun q => match valToString (normGet q "_id") with
            | some t => strictEqStr (normGet r "property_id") t
            | none => false) = some p' := hfind
    have hrconc : r = fixRev := by
      have : r ∈ fixOwnerStore.reviews := hr
      simpa [fixOwnerStore, fixRev] using this
    rw [hrconc] at hconc
    have hcomp : (fixOwnerStore.properties.filter (fun q =>
        matchesPostedByEmail q "o@x.com")).find?
          (fun q => match valToString (normGet q "_id") with
            | some t => strictEqStr (normGet fixRev "property_id") t
            | none => false) = some fixProp := by decide
    rw [hcomp] at hconc
    exact (Option.some.inj hconc).symm
  refine ⟨h0, hb, ?_⟩
  rw [hp'] at hname
  exact hname (.vStr "Villa") (by decide) (by decide)
